import Mathlib

/-
Verification of the `meter` package (meeting-cost calculator) against its
specification.  The Go source (src/meter.go) is shallowly embedded:

* Go `float64` values are modelled by `GoFloat`: an exact rational for the
  finite values (the arithmetic the program performs — `/`, `*`, `+` — is
  modelled by the exact rational operations, a declared uniform
  idealization), plus the two signed infinities and NaN, whose propagation
  through `+`, the cost formula and `%.2f` printing is modelled exactly.
* Go `time.Duration` is an `int64` count of nanoseconds; we model it as `Int`.
* `strconv.ParseFloat` is modelled on whole strings after Go's atof.go:
  the case-insensitive specials `inf`/`infinity` (optionally signed) and
  unsigned `nan`; decimal mantissas with optional single dot and optional
  `e`-exponent; hexadecimal mantissas (`0x` prefix, mandatory `p`-exponent);
  underscore digit separators validated exactly as Go's `underscoreOK`;
  and the range error: syntactically valid input whose magnitude rounds
  beyond the largest float64 (that is, at least 2^1024 − 2^970) makes
  `ParseFloat` return a non-nil error, which the program treats like a
  parse failure.  Finite parsed values are kept exact (no rounding to
  binary), per the idealization above; sub-normal underflow returns the
  (exact) tiny value, as Go returns the rounded value with no error.
* I/O is modelled explicitly: an input stream is a `List String` of lines,
  output effects are returned as data (displayed strings, prompt counts).
* The unbounded `for` loop of `GetRate` is modelled with explicit fuel, and
  `bufio.Scanner` behaviour at end of input (every further `Text()` call
  yields `""`) is modelled by reading the head of the remaining line list
  with default `""`.
-/

set_option maxRecDepth 8000
set_option exponentiation.threshold 1100

namespace Meter

/-- One millisecond in nanoseconds (Go `time.Millisecond`). -/
def millisecond : Int := 1000000

/-- One second in nanoseconds (Go `time.Second`). -/
def second : Int := 1000000000

/-- One minute in nanoseconds (Go `time.Minute`). -/
def minute : Int := 60 * second

/-- One hour in nanoseconds (Go `time.Hour`). -/
def hour : Int := 60 * minute

/-- The `Flags` record of meter.go: hourly rate, meeting duration and tick
interval (durations in nanoseconds). -/
structure Flags where
  HourlyRate : ℚ
  MeetingDuration : Int
  Ticks : Int
deriving DecidableEq, Repr

/-- Go `time.Duration.Seconds`: the duration expressed in (fractional)
seconds. -/
def Seconds (d : Int) : ℚ := (d : ℚ) / 1000000000

/-- `Cost` from meter.go lines 56-60: `durationSec := duration.Seconds();
ratePerSecond := hourlyRate / 60 / 60; return ratePerSecond * durationSec`. -/
def Cost (hourlyRate : ℚ) (duration : Int) : ℚ :=
  let durationSec := Seconds duration
  let ratePerSecond := hourlyRate / 60 / 60
  ratePerSecond * durationSec

/-- The sentinel test of meter.go line 72: `line == "q" || line == "Q"`. -/
def isSentinel (line : String) : Bool := line = "q" || line = "Q"

/-- Values of Go `float64` as the program observes them: finite values
(modelled exactly as rationals), the two signed infinities, and NaN. -/
inductive GoFloat where
  | finite (val : ℚ)
  | inf (neg : Bool)
  | nan
deriving DecidableEq, Repr

/-- IEEE 754 addition on the modelled value domain (Go `+` on float64):
finite values add exactly (idealized), an infinity absorbs finite values,
opposite infinities give NaN, and NaN propagates. -/
def addFloat : GoFloat → GoFloat → GoFloat
  | .finite a, .finite b => .finite (a + b)
  | .finite _, .inf s => .inf s
  | .inf s, .finite _ => .inf s
  | .inf s, .inf t => if s = t then .inf s else .nan
  | .nan, _ => .nan
  | .finite _, .nan => .nan
  | .inf _, .nan => .nan

/-- Syntactic decomposition of a finite Go float literal: sign, base
(decimal or hexadecimal mantissa), integer-digit value, fractional-digit
value and count, and the (signed) exponent value. -/
structure FloatParts where
  neg : Bool
  hex : Bool
  intVal : Nat
  fracVal : Nat
  fracLen : Nat
  expNeg : Bool
  expVal : Nat
deriving DecidableEq, Repr

/-- Mantissa digit base: 16 under the `0x` prefix, 10 otherwise. -/
def partsBase (p : FloatParts) : Nat := if p.hex then 16 else 10

/-- Exponent step: `p`-exponents scale by powers of 2, `e`-exponents by
powers of 10. -/
def partsStep (p : FloatParts) : Nat := if p.hex then 2 else 10

/-- Numerator of the unsigned mantissa over `partsBase ^ fracLen`. -/
def partsNum (p : FloatParts) : Nat :=
  p.intVal * partsBase p ^ p.fracLen + p.fracVal

/-- Denominator of the unsigned mantissa. -/
def partsDen (p : FloatParts) : Nat := partsBase p ^ p.fracLen

/-- Smallest magnitude that rounds beyond the largest finite float64:
half an ulp above `MaxFloat64 = 2^1024 − 2^971` (ties round to even, away
from the all-ones mantissa).  Go's `ParseFloat` reports a range error
exactly when the magnitude reaches this bound. -/
def overflowCutoff : Nat := 2 ^ 1024 - 2 ^ 970

/-- Whether the exact magnitude `partsNum/partsDen * step^(±expVal)`
reaches the float64 overflow cutoff (stated over naturals so the test is
computable without rational normalization).  A zero mantissa never
overflows, and with a negative exponent the magnitude is at most
`partsNum/partsDen`, so overflow needs the mantissa alone to reach the
cutoff — both shortcuts agree with the general comparison and keep the
test evaluable without raising the step to astronomic exponents. -/
def partsOverflow (p : FloatParts) : Bool :=
  if partsNum p = 0 then false
  else if p.expNeg then
    if partsNum p < overflowCutoff * partsDen p then false
    else decide (overflowCutoff * partsDen p * partsStep p ^ p.expVal ≤ partsNum p)
  else
    decide (overflowCutoff * partsDen p ≤ partsNum p * partsStep p ^ p.expVal)

/-- The exact rational value denoted by a finite float literal. -/
def ratOfFloatParts (p : FloatParts) : ℚ :=
  (if p.neg then -1 else 1) * ((partsNum p : ℚ) / (partsDen p : ℚ)) *
    (if p.expNeg then ((partsStep p : ℚ) ^ p.expVal)⁻¹
     else (partsStep p : ℚ) ^ p.expVal)

/-- Result of the syntactic layer of `strconv.ParseFloat`: a finite
literal, a signed infinity, or NaN. -/
inductive ParsedFloat where
  | finite (p : FloatParts)
  | inf (neg : Bool)
  | nan
deriving DecidableEq, Repr

/-- Whether a character is a lowercase-folded hexadecimal letter digit. -/
def isHexLetter (c : Char) : Bool := 'a' ≤ c.toLower && c.toLower ≤ 'f'

/-- Value of a mantissa digit character (decimal or hexadecimal). -/
def hexDigitVal (c : Char) : Nat :=
  if c.isDigit then c.toNat - 48 else c.toLower.toNat - 87

/-- Value of a digit string in base `b`, most significant first. -/
def digitsValB (b : Nat) (cs : List Char) : Nat :=
  cs.foldl (fun a c => a * b + hexDigitVal c) 0

/-- Core of Go's `underscoreOK` (strconv/atoi.go): scan remembering the
class of the previous character — 0 at the start, 1 after a digit (or the
base prefix), 2 after an underscore, 3 after anything else.  An underscore
must follow a digit, and the string must not end in one. -/
def underscoreOKCore (hex : Bool) : List Char → Nat → Bool
  | [], saw => saw != 2
  | c :: rest, saw =>
      if c.isDigit || (hex && isHexLetter c) then underscoreOKCore hex rest 1
      else if c = '_' then
        if saw = 1 then underscoreOKCore hex rest 2 else false
      else if saw = 2 then false
      else underscoreOKCore hex rest 3

/-- Go's `underscoreOK`: underscores may appear only between successive
digits or between the `0x` base prefix and a digit. -/
def underscoreOK (cs : List Char) : Bool :=
  let cs1 := if cs.headD ' ' = '-' || cs.headD ' ' = '+' then cs.tail else cs
  let hasPfx := decide (2 ≤ cs1.length) && cs1.headD ' ' = '0'
      && (cs1.tail.headD ' ').toLower = 'x'
  if hasPfx then underscoreOKCore true cs1.tail.tail 1
  else underscoreOKCore false cs1 0

/-- Syntactic layer of Go `strconv.ParseFloat` on a whole string
(strconv/atof.go, `special` and `readFloat` with the full-consumption check
of `ParseFloat`): optionally signed case-insensitive `inf`/`infinity` and
unsigned case-insensitive `nan`; otherwise an optional sign, then either a
decimal mantissa (digits with at most one dot, at least one digit) with an
optional `e`/`E` exponent (optional sign, at least one decimal digit), or a
`0x`/`0X` hexadecimal mantissa with a mandatory `p`/`P` exponent.
Underscore separators are allowed where `underscoreOK` allows them.
A finite literal whose magnitude reaches the float64 overflow cutoff is
rejected, as `ParseFloat` returns it with a non-nil range error. -/
def parseFloatRaw? (s : String) : Option ParsedFloat :=
  let cs := s.data
  let ls := cs.map Char.toLower
  if ls = ['n', 'a', 'n'] then some .nan
  else
    let negSpecial := ls.headD ' ' = '-'
    let lsBody := if ls.headD ' ' = '-' || ls.headD ' ' = '+' then ls.tail else ls
    if lsBody = ['i', 'n', 'f'] ||
        lsBody = ['i', 'n', 'f', 'i', 'n', 'i', 't', 'y'] then
      some (.inf negSpecial)
    else
      let neg := cs.headD ' ' = '-'
      let cs1 := if cs.headD ' ' = '-' || cs.headD ' ' = '+' then cs.tail else cs
      let hex := decide (2 < cs1.length) && cs1.headD ' ' = '0'
          && (cs1.tail.headD ' ').toLower = 'x'
      let body := if hex then cs1.tail.tail else cs1
      let b : Nat := if hex then 16 else 10
      let expChar : Char := if hex then 'p' else 'e'
      let isMDigit : Char → Bool := fun c => c.isDigit || (hex && isHexLetter c)
      let isMChar : Char → Bool := fun c => isMDigit c || c = '_'
      let mant := body.takeWhile (fun c => c.toLower ≠ expChar)
      let expPart := body.dropWhile (fun c => c.toLower ≠ expChar)
      let intPart := mant.takeWhile (fun c => c ≠ '.')
      let dotFrac := mant.dropWhile (fun c => c ≠ '.')
      let fracPart := dotFrac.tail
      let mantOK := intPart.all isMChar && fracPart.all isMChar
          && (intPart.any isMDigit || fracPart.any isMDigit)
      let er := expPart.tail
      let expNeg := er.headD ' ' = '-'
      let er1 := if er.headD ' ' = '-' || er.headD ' ' = '+' then er.tail else er
      let expOK := if expPart.isEmpty then !hex
        else er1.all (fun c => c.isDigit || c = '_') && er1.any Char.isDigit
      let p : FloatParts :=
        { neg, hex
          intVal := digitsValB b (intPart.filter (fun c => c ≠ '_'))
          fracVal := digitsValB b (fracPart.filter (fun c => c ≠ '_'))
          fracLen := (fracPart.filter (fun c => c ≠ '_')).length
          expNeg := !expPart.isEmpty && expNeg
          expVal := if expPart.isEmpty then 0
            else digitsValB 10 (er1.filter (fun c => c ≠ '_')) }
      if mantOK && expOK && underscoreOK cs && !partsOverflow p then
        some (.finite p)
      else none

/-- The `float64` value of a syntactically parsed literal. -/
def valOfParsed : ParsedFloat → GoFloat
  | .finite p => .finite (ratOfFloatParts p)
  | .inf n => .inf n
  | .nan => .nan

/-- Models Go `strconv.ParseFloat(line, 64)` as the program uses it:
`some` value on success, `none` exactly when Go returns a non-nil error
(syntax error or overflow range error). -/
def parseFloat? (s : String) : Option GoFloat :=
  (parseFloatRaw? s).map valOfParsed

/-- `GetRate` from meter.go lines 62-83, with explicit fuel bounding the
number of loop iterations.  The input stream is the list of lines still
unread; once it is exhausted, every further `scanner.Text()` yields `""`
(Go `bufio.Scanner` behaviour after end of input), modelled by `headD ""`.
Returns the accumulated rate (`none` if the loop did not hit a sentinel
within `fuel` iterations) together with the number of retry prompts
(`Sorry, didn't understand ...`) emitted. -/
def GetRate : Nat → List String → GoFloat → Option GoFloat × Nat
  | 0, _, _ => (none, 0)
  | fuel + 1, input, rate =>
      let line := input.headD ""
      if isSentinel line then (some rate, 0)
      else
        match parseFloat? line with
        | some f => GetRate fuel input.tail (addFloat rate f)
        | none =>
            let r := GetRate fuel input.tail rate
            (r.1, r.2 + 1)

/-- The lines read before the first sentinel line. -/
def preSentinel (input : List String) : List String :=
  input.takeWhile (fun s => !isSentinel s)

/-- Running sum, in stream order, of the values of the lines that parse,
starting from `rate`. -/
def sumParsed (rate : GoFloat) (lines : List String) : GoFloat :=
  (lines.filterMap parseFloat?).foldl addFloat rate

/-- Number of lines that fail to parse (each costs one retry prompt). -/
def countBad (lines : List String) : Nat :=
  (lines.filter (fun s => (parseFloat? s).isNone)).length

/-- A float64 value that is non-negative: a non-negative finite value or
positive infinity. -/
def nonnegF : GoFloat → Prop
  | .finite q => 0 ≤ q
  | .inf neg => neg = false
  | .nan => False

/-- The two termination strategies of meter.go: `UserInputStrategy`
(interactive) and `FixedTimeStrategy` (sleep for the meeting duration). -/
inductive Strategy where
  | userInput
  | fixedTime
deriving DecidableEq, Repr

/-- The tasks started by one call of `Meeting.Timer` (meter.go lines
133-142): the ticking loop `Timer2` is always spawned, plus exactly the one
termination strategy chosen by the `MeetingDuration == 0` test. -/
structure SessionTasks where
  ticking : Bool
  strategy : Strategy
deriving DecidableEq, Repr

/-- `Timer` from meter.go lines 133-142: spawn the ticking loop and select
the termination strategy. -/
def Timer (f : Flags) : SessionTasks :=
  { ticking := true
    strategy := if f.MeetingDuration = 0 then .userInput else .fixedTime }

/-- The decimal digit character for `n % 10`. -/
def digitChar (n : Nat) : Char := Char.ofNat (48 + n)

/-- Two-digit zero-padded decimal rendering of `n < 100`, as Go `%.2f`
produces for the fractional part. -/
def pad2 (n : Nat) : String :=
  String.mk [digitChar (n / 10 % 10), digitChar (n % 10)]

/-- Go `%.2f` formatting of a finite rational value: round to the nearest
hundredth (half up, modelling Go fmt correct decimal rounding at the values
this program prints) and render with exactly two digits after the point. -/
def formatF2 (c : ℚ) : String :=
  let n : Int := ⌊c * 100 + 1 / 2⌋
  let sign := if n < 0 then "-" else ""
  let m := n.natAbs
  sign ++ toString (m / 100) ++ "." ++ pad2 (m % 100)

/-- `DisplayCost` from meter.go lines 145-148 at a finite cost: the exact
string written to the output writer (`fmt.Sprintf` of the format applied to
the cost). -/
def DisplayCost (cost : ℚ) : String :=
  "\rThe total current cost of this meeting is $" ++ formatF2 cost

/-- `DisplayCost` over the full value domain: Go fmt prints `%.2f` of the
infinities as `+Inf`/`-Inf` and of NaN as `NaN`. -/
def DisplayCostF : GoFloat → String
  | .finite q => DisplayCost q
  | .inf false => "\rThe total current cost of this meeting is $+Inf"
  | .inf true => "\rThe total current cost of this meeting is $-Inf"
  | .nan => "\rThe total current cost of this meeting is $NaN"

/-- `Cost` over the full value domain (IEEE arithmetic of meter.go lines
56-60 when the rate is not finite): an infinite rate divided by 3600 keeps
its sign; multiplying it by the duration in seconds keeps the sign for a
positive duration, flips it for a negative one, and gives NaN for duration
zero; NaN propagates. -/
def CostF : GoFloat → Int → GoFloat
  | .finite q, d => .finite (Cost q d)
  | .inf n, d => if d = 0 then .nan else if 0 < d then .inf n else .inf (!n)
  | .nan, _ => .nan

/-- Observable outcome of `RunCLI` (meter.go lines 153-176) after the rate
substitution step:
* `interactive` — the `MeetingDuration == 0` branch: banner, `Timer`,
  busy-poll on `Finished`, then `os.Exit(0)`;
* `fireAndForget` — the `Ticks > time.Second` branch: `Timer` is started
  and `os.Exit(0)` is called immediately, without waiting;
* `oneShot s` — the remaining branch: the single display string `s` is
  written (followed by one newline from `Fprintln`) and the function
  returns normally. -/
inductive CLIOutcome where
  | interactive
  | fireAndForget
  | oneShot (displayed : String)
deriving DecidableEq, Repr

/-- `RunCLI` from meter.go lines 153-176.  `input` is the stream available
to `GetRate`, `fuel` bounds its loop.  Returns the effective hourly rate
(after the `HourlyRate == 0` substitution of lines 154-156) and the branch
outcome; `none` when the rate collection loop does not terminate within
`fuel` iterations. -/
def RunCLI (f : Flags) (input : List String) (fuel : Nat) :
    Option (GoFloat × CLIOutcome) :=
  let rate? : Option GoFloat :=
    if f.HourlyRate = 0 then (GetRate fuel input (.finite 0)).1
    else some (.finite f.HourlyRate)
  match rate? with
  | none => none
  | some r =>
      if f.MeetingDuration = 0 then some (r, .interactive)
      else if second < f.Ticks then some (r, .fireAndForget)
      else some (r, .oneShot (DisplayCostF (CostF r f.MeetingDuration)))

/-- One unfolding step of the `GetRate` loop on a non-empty input stream. -/
theorem GetRate_cons (fuel : Nat) (a : String) (rest : List String) (rate : GoFloat) :
    GetRate (fuel + 1) (a :: rest) rate
      = if isSentinel a then (some rate, 0)
        else
          match parseFloat? a with
          | some f => GetRate fuel rest (addFloat rate f)
          | none => ((GetRate fuel rest rate).1, (GetRate fuel rest rate).2 + 1) :=
  rfl

/-- Decimal digit characters are digits. -/
theorem digitChar_isDigit (j : Nat) (h : j < 10) : (digitChar j).isDigit = true := by
  revert h
  revert j
  decide

/-- IEEE addition preserves non-negative values: no NaN can arise and no
negative value or negative infinity can appear. -/
theorem addFloat_nonneg (a b : GoFloat) (ha : nonnegF a) (hb : nonnegF b) :
    nonnegF (addFloat a b) := by
  cases a with
  | finite qa =>
      cases b with
      | finite qb => exact add_nonneg ha hb
      | inf t => exact hb
      | nan => exact hb.elim
  | inf s =>
      cases b with
      | finite qb => exact ha
      | inf t =>
          have hs : s = false := ha
          have ht : t = false := hb
          subst hs; subst ht
          simp [addFloat, nonnegF]
      | nan => exact hb.elim
  | nan => exact ha.elim

/-- C1: `Cost` returns exactly the hourly rate divided by 3600 multiplied by
the duration in seconds; in particular `Cost 150 (1 hour) = 150` and
`Cost 9.95 (30 minutes) = 4.975`.  (Purity is inherent in the embedding:
`Cost` is a pure function of its two arguments.) -/
theorem Cost_spec :
    (∀ (r : ℚ) (d : Int), Cost r d = r / 3600 * Seconds d)
    ∧ Cost 150 hour = 150
    ∧ Cost (199 / 20) (30 * minute) = 4975 / 1000 := by
  refine ⟨fun r d => ?_, by norm_num [Cost, Seconds, hour, minute, second],
    by norm_num [Cost, Seconds, minute, second]⟩
  unfold Cost
  rw [div_div]
  norm_num

/-- C8: `Cost` is linear in each argument separately: doubling the rate or
doubling the duration doubles the cost. -/
theorem Cost_linear :
    ∀ (r : ℚ) (d : Int),
      Cost (2 * r) d = 2 * Cost r d ∧ Cost r (2 * d) = 2 * Cost r d := by
  intro r d
  constructor
  · unfold Cost
    ring
  · unfold Cost Seconds
    push_cast
    ring

/-- C4: `Cost` does NOT truncate sub-second durations to zero.  At rate 3600
and duration 500 ms the code returns 1/2, not the 0 promised by the
function's own documentation comment (`Durations shorter than one second
will return a cost of 0`, meter.go line 55). -/
theorem Cost_subsecond_not_truncated :
    Cost 3600 (500 * millisecond) = 1 / 2 ∧ (1 / 2 : ℚ) ≠ 0 := by
  constructor
  · norm_num [Cost, Seconds, millisecond]
  · norm_num

/-- C10: once the input stream is exhausted before any sentinel line, the
`GetRate` loop never terminates: every further read yields `""`, which is
not a sentinel and fails to parse, so for every iteration bound `fuel` the
loop is still running (`none`) and has emitted one retry prompt per
iteration. -/
theorem GetRate_exhausted_diverges :
    ∀ (fuel : Nat) (rate : GoFloat), GetRate fuel [] rate = (none, fuel) := by
  intro fuel
  induction fuel with
  | zero => intro rate; rfl
  | succ n ih =>
      intro rate
      have h : GetRate (n + 1) [] rate
          = ((GetRate n [] rate).1, (GetRate n [] rate).2 + 1) := rfl
      rw [h, ih rate]

/-- C6: `Timer` starts the ticking loop together with exactly one
termination strategy: the interactive (user-input) strategy when
`MeetingDuration = 0`, the fixed-duration strategy otherwise. -/
theorem Timer_strategy_selection :
    ∀ f : Flags,
      (f.MeetingDuration = 0 → Timer f = ⟨true, Strategy.userInput⟩)
      ∧ (f.MeetingDuration ≠ 0 → Timer f = ⟨true, Strategy.fixedTime⟩)
      ∧ ((Timer f).strategy = Strategy.userInput
          ↔ ¬(Timer f).strategy = Strategy.fixedTime) := by
  intro f
  unfold Timer
  by_cases h : f.MeetingDuration = 0 <;> simp [h]

/-- Witness for C6 at concrete configurations: duration 0 selects the
interactive strategy, duration 1 hour selects the fixed-duration one. -/
theorem Timer_strategy_selection_witness :
    Timer ⟨0, 0, second⟩ = ⟨true, Strategy.userInput⟩
    ∧ Timer ⟨0, hour, second⟩ = ⟨true, Strategy.fixedTime⟩ :=
  ⟨(Timer_strategy_selection ⟨0, 0, second⟩).1 rfl,
   (Timer_strategy_selection ⟨0, hour, second⟩).2.1 (by decide)⟩

/-- C7: `DisplayCost` writes exactly the format string
`\rThe total current cost of this meeting is $%.2f` applied to the cost: a
leading carriage return followed by the fixed text, then the amount with
exactly two decimal digits and no trailing newline (the string ends in the
two decimal digits). -/
theorem DisplayCost_format :
    ∀ c : ℚ,
      DisplayCost c
        = "\r" ++ "The total current cost of this meeting is $" ++ formatF2 c
      ∧ ∃ s t, formatF2 c = s ++ "." ++ t ∧ t.length = 2
          ∧ t.data.all Char.isDigit = true := by
  intro c
  refine ⟨rfl, ?_⟩
  refine ⟨(if (⌊c * 100 + 1 / 2⌋ : ℤ) < 0 then "-" else "")
      ++ toString ((⌊c * 100 + 1 / 2⌋ : ℤ).natAbs / 100),
    pad2 ((⌊c * 100 + 1 / 2⌋ : ℤ).natAbs % 100), rfl, rfl, ?_⟩
  have h1 := digitChar_isDigit ((⌊c * 100 + 1 / 2⌋ : ℤ).natAbs % 100 / 10 % 10)
    (Nat.mod_lt _ (by norm_num))
  have h2 := digitChar_isDigit ((⌊c * 100 + 1 / 2⌋ : ℤ).natAbs % 100 % 10)
    (Nat.mod_lt _ (by norm_num))
  simp only [pad2, List.all_cons, List.all_nil, h1, h2]
  rfl

/-- C5: `GetRate` reads lines until the first sentinel (`"q"`/`"Q"`) and
returns the running sum, in stream order, of the values of all lines that
`strconv.ParseFloat` accepts, emitting exactly one retry prompt per line
that fails to parse and never propagating the failure (the loop continues
with the sum unchanged).  In particular `["100", "foo", "50", "q"]` yields
150 with exactly one retry prompt, `["1e3", "q"]` yields 1000 with no
prompt, and `["Q"]` immediately yields 0. -/
theorem GetRate_collects :
    (∀ (input : List String) (rate : GoFloat), input.any isSentinel = true →
      GetRate input.length input rate
        = (some (sumParsed rate (preSentinel input)),
           countBad (preSentinel input)))
    ∧ GetRate 4 ["100", "foo", "50", "q"] (.finite 0) = (some (.finite 150), 1)
    ∧ GetRate 2 ["1e3", "q"] (.finite 0) = (some (.finite 1000), 0)
    ∧ GetRate 1 ["Q"] (.finite 0) = (some (.finite 0), 0) := by
  refine ⟨?_, ?_, ?_, rfl⟩
  · intro input
    induction input with
    | nil => intro rate h; simp at h
    | cons a rest ih =>
        intro rate h
        rw [List.length_cons, GetRate_cons]
        cases hs : isSentinel a with
        | true =>
            simp only [hs, if_true]
            simp [preSentinel, sumParsed, countBad, hs]
        | false =>
            have hrest : rest.any isSentinel = true := by
              rw [List.any_cons, hs] at h
              simpa using h
            have hpre : preSentinel (a :: rest) = a :: preSentinel rest := by
              simp [preSentinel, hs]
            simp only [hs, Bool.false_eq_true, if_false]
            cases hp : parseFloat? a with
            | some f =>
                show GetRate rest.length rest (addFloat rate f) = _
                rw [ih (addFloat rate f) hrest, hpre]
                have hsum : sumParsed rate (a :: preSentinel rest)
                    = sumParsed (addFloat rate f) (preSentinel rest) := by
                  simp [sumParsed, List.filterMap_cons, hp]
                have hbad : countBad (a :: preSentinel rest)
                    = countBad (preSentinel rest) := by
                  simp [countBad, List.filter_cons, hp]
                rw [hsum, hbad]
            | none =>
                show ((GetRate rest.length rest rate).1,
                  (GetRate rest.length rest rate).2 + 1) = _
                rw [ih rate hrest, hpre]
                have hsum : sumParsed rate (a :: preSentinel rest)
                    = sumParsed rate (preSentinel rest) := by
                  simp [sumParsed, List.filterMap_cons, hp]
                have hbad : countBad (a :: preSentinel rest)
                    = countBad (preSentinel rest) + 1 := by
                  simp [countBad, List.filter_cons, hp]
                rw [hsum, hbad]
  · have h : GetRate 4 ["100", "foo", "50", "q"] (.finite 0)
        = (some (.finite (0 + ratOfFloatParts ⟨false, false, 100, 0, 0, false, 0⟩
            + ratOfFloatParts ⟨false, false, 50, 0, 0, false, 0⟩)), 1) := rfl
    rw [h]
    norm_num [ratOfFloatParts, partsNum, partsDen, partsBase, partsStep]
  · have h : GetRate 2 ["1e3", "q"] (.finite 0)
        = (some (.finite (0 + ratOfFloatParts ⟨false, false, 1, 0, 0, false, 3⟩)),
           0) := rfl
    rw [h]
    norm_num [ratOfFloatParts, partsNum, partsDen, partsBase, partsStep]

/-- Witness for C5: the general collection statement applied to the stream
`["Q"]` with accumulator 5. -/
theorem GetRate_collects_witness :
    GetRate (["Q"].length) ["Q"] (.finite 5)
      = (some (sumParsed (.finite 5) (preSentinel ["Q"])),
         countBad (preSentinel ["Q"])) :=
  GetRate_collects.1 ["Q"] (.finite 5) (by decide)

/-- C3: for every configuration whose meeting duration is non-zero, if the
tick interval exceeds one second then `RunCLI` starts the ticking session
and exits the process at once (fire-and-forget); otherwise it computes the
cost exactly once over the full meeting duration via the cost function,
displays it once, and returns normally. -/
theorem RunCLI_fixed_duration_branches :
    ∀ (f : Flags) (input : List String) (fuel : Nat) (r : GoFloat)
      (o : CLIOutcome),
      f.MeetingDuration ≠ 0 →
      RunCLI f input fuel = some (r, o) →
      (second < f.Ticks → o = CLIOutcome.fireAndForget)
      ∧ (¬ second < f.Ticks →
          o = CLIOutcome.oneShot (DisplayCostF (CostF r f.MeetingDuration))) := by
  intro f input fuel r o hd hrun
  unfold RunCLI at hrun
  cases hq : (if f.HourlyRate = 0 then (GetRate fuel input (.finite 0)).1
      else some (.finite f.HourlyRate)) with
  | none => rw [hq] at hrun; dsimp only at hrun; cases hrun
  | some rEff =>
      rw [hq] at hrun
      dsimp only at hrun
      rw [if_neg hd] at hrun
      by_cases ht : second < f.Ticks
      · rw [if_pos ht] at hrun
        simp only [Option.some.injEq, Prod.mk.injEq] at hrun
        exact ⟨fun _ => hrun.2.symm, fun hc => absurd ht hc⟩
      · rw [if_neg ht] at hrun
        simp only [Option.some.injEq, Prod.mk.injEq] at hrun
        refine ⟨fun hc => absurd hc ht, fun _ => ?_⟩
        rw [← hrun.2, hrun.1]

/-- Witness for C3 at the configuration rate 100, duration 1 hour, ticks
2 seconds, where `RunCLI` takes the fire-and-forget branch. -/
theorem RunCLI_fixed_duration_branches_witness :
    (second < 2 * second → CLIOutcome.fireAndForget = CLIOutcome.fireAndForget)
    ∧ (¬ second < 2 * second → CLIOutcome.fireAndForget
        = CLIOutcome.oneShot (DisplayCostF (CostF (.finite 100) hour))) :=
  RunCLI_fixed_duration_branches ⟨100, hour, 2 * second⟩ [] 0 (.finite 100)
    .fireAndForget (by decide) (by norm_num [RunCLI, hour, minute, second])

/-- The displayed string for an effective rate of 100 over one hour. -/
theorem DisplayCost_at_100 :
    DisplayCost (Cost 100 hour)
      = "\rThe total current cost of this meeting is $100.00" := by
  have hc : Cost 100 hour = 100 := by norm_num [Cost, Seconds, hour, minute, second]
  have hfl : (⌊(100 : ℚ) * 100 + 1 / 2⌋ : ℤ) = 10000 := by
    rw [Int.floor_eq_iff]
    norm_num
  rw [hc]
  simp only [DisplayCost, formatF2, hfl]
  rfl

/-- Counterexample to C2 as stated: with `{rate:100, duration:1h,
ticks:500ms}` the one-shot display path IS taken (the code tests
`Ticks > time.Second`, and 500 ms is not greater than one second), and with
`{rate:100, duration:1h, ticks:2s}` a ticking session starts fire-and-forget
with no one-shot display — exactly the opposite of the claim. -/
theorem RunCLI_tick_threshold_counterexample :
    RunCLI ⟨100, hour, 500 * millisecond⟩ [] 0
      = some (.finite 100, CLIOutcome.oneShot
          "\rThe total current cost of this meeting is $100.00")
    ∧ RunCLI ⟨100, hour, 2 * second⟩ [] 0
        = some (.finite 100, CLIOutcome.fireAndForget)
    ∧ CLIOutcome.oneShot "\rThe total current cost of this meeting is $100.00"
        ≠ CLIOutcome.fireAndForget := by
  refine ⟨?_, by norm_num [RunCLI, hour, minute, second], by decide⟩
  have h1 : RunCLI ⟨100, hour, 500 * millisecond⟩ [] 0
      = some (.finite 100,
          CLIOutcome.oneShot (DisplayCostF (CostF (.finite 100) hour))) := by
    norm_num [RunCLI, hour, minute, second, millisecond]
  have h2 : DisplayCostF (CostF (.finite 100) hour)
      = DisplayCost (Cost 100 hour) := rfl
  rw [h1, h2, DisplayCost_at_100]

/-- C2 amended: with `{rate:100, duration:1h, ticks:500ms}` the result is a
single one-shot display of `$100.00` and no ticking; with `{rate:100,
duration:1h, ticks:2s}` the ticking session starts and the process exits
immediately (fire-and-forget), with no one-shot display. -/
theorem RunCLI_tick_threshold_amended :
    RunCLI ⟨100, hour, 500 * millisecond⟩ [] 0
      = some (.finite 100,
          CLIOutcome.oneShot (DisplayCostF (CostF (.finite 100) hour)))
    ∧ DisplayCostF (CostF (.finite 100) hour)
        = "\rThe total current cost of this meeting is $100.00"
    ∧ RunCLI ⟨100, hour, 2 * second⟩ [] 0
        = some (.finite 100, CLIOutcome.fireAndForget) := by
  refine ⟨?_, ?_, by norm_num [RunCLI, hour, minute, second]⟩
  · norm_num [RunCLI, hour, minute, second, millisecond]
  · have h : DisplayCostF (CostF (.finite 100) hour)
        = DisplayCost (Cost 100 hour) := rfl
    rw [h, DisplayCost_at_100]

/-- Counterexample to C9 as stated: the Rate Collector accepts negative
entries, so the substituted hourly rate in `RunCLI` can be negative.  With
input `["-50", "q"]` the collected rate is −50 < 0. -/
theorem RunCLI_rate_negative_counterexample :
    (RunCLI ⟨0, hour, 500 * millisecond⟩ ["-50", "q"] 2).map Prod.fst
      = some (.finite (-50))
    ∧ ((-50 : ℚ) < 0) := by
  refine ⟨?_, by norm_num⟩
  have h0 : (GetRate 2 ["-50", "q"] (.finite 0)).1
      = some (.finite (0 + ratOfFloatParts ⟨true, false, 50, 0, 0, false, 0⟩)) :=
    rfl
  have h1 : (0 : ℚ) + ratOfFloatParts ⟨true, false, 50, 0, 0, false, 0⟩ = -50 := by
    norm_num [ratOfFloatParts, partsNum, partsDen, partsBase, partsStep]
  have h2 : (GetRate 2 ["-50", "q"] (.finite 0)).1 = some (.finite (-50)) := by
    rw [h0, h1]
  norm_num [RunCLI, h2, hour, minute, second, millisecond]

/-- C9 amended: the substituted hourly rate is only guaranteed non-negative
when every line the program successfully parses has a non-negative value (a
non-negative finite number or +Inf); the code itself never enforces the
sign.  Starting from a non-negative accumulator, if all parseable lines of
the stream have non-negative values, the rate returned by `GetRate` is
non-negative (a non-negative finite number or +Inf). -/
theorem GetRate_nonneg_of_nonneg_inputs :
    ∀ (fuel : Nat) (input : List String) (rate g : GoFloat),
      nonnegF rate →
      (∀ s ∈ input, ∀ p, parseFloat? s = some p → nonnegF p) →
      (GetRate fuel input rate).1 = some g → nonnegF g := by
  intro fuel
  induction fuel with
  | zero => intro input rate g _ _ hr; cases hr
  | succ n ih =>
      intro input rate g hrate hin hr
      cases input with
      | nil =>
          have h : (GetRate (n + 1) ([] : List String) rate).1
              = (GetRate n [] rate).1 := rfl
          rw [h] at hr
          exact ih [] rate g hrate (by intro s hs; cases hs) hr
      | cons a rest =>
          rw [GetRate_cons] at hr
          cases hs : isSentinel a with
          | true =>
              rw [hs] at hr
              simp only [if_true] at hr
              cases hr
              exact hrate
          | false =>
              rw [hs] at hr
              simp only [Bool.false_eq_true, if_false] at hr
              cases hp : parseFloat? a with
              | some f =>
                  rw [hp] at hr
                  have hf : nonnegF f := hin a (List.mem_cons_self a rest) f hp
                  exact ih rest (addFloat rate f) g (addFloat_nonneg rate f hrate hf)
                    (fun s hsm => hin s (List.mem_cons_of_mem a hsm)) hr
              | none =>
                  rw [hp] at hr
                  exact ih rest rate g hrate
                    (fun s hsm => hin s (List.mem_cons_of_mem a hsm)) hr

/-- Witness for the amended C9: the stream `["100", "q"]` has only
non-negative parseable lines and the collected rate is non-negative. -/
theorem GetRate_nonneg_of_nonneg_inputs_witness :
    nonnegF (.finite ((0 : ℚ)
      + ratOfFloatParts ⟨false, false, 100, 0, 0, false, 0⟩)) :=
  GetRate_nonneg_of_nonneg_inputs 2 ["100", "q"] (.finite 0)
    (.finite (0 + ratOfFloatParts ⟨false, false, 100, 0, 0, false, 0⟩))
    (by norm_num [nonnegF])
    (by
      intro s hs p hp
      simp only [List.mem_cons, List.not_mem_nil, or_false] at hs
      rcases hs with rfl | rfl
      · have h : parseFloat? "100"
            = some (.finite (ratOfFloatParts ⟨false, false, 100, 0, 0, false, 0⟩)) :=
          rfl
        rw [h] at hp
        cases hp
        norm_num [nonnegF, ratOfFloatParts, partsNum, partsDen, partsBase, partsStep]
      · have h : parseFloat? "q" = none := rfl
        rw [h] at hp
        cases hp)
    rfl

end Meter
